import Mathlib

/-
Verification of the concurrent-cache core of the repository
(go/day0/topics/immutable_data.go and go/day0/topics/lazy_initialization.go):
the copy-on-write map container, the lazy single-value cache, and the keyed
lazy cache with double-checked locking.

The Go code is shallowly embedded: the built-in map[string]int is modelled
as a function String -> Option Int (absent key = none, and a read of an
absent key yields the zero value 0, as in Go); mutexes vanish because the
embedding gives each lock-protected critical section as one atomic step;
goroutine interleavings for the keyed cache are modelled explicitly as
schedules over per-thread phase machines whose atomic steps are exactly the
critical sections of Cache.Get; a loader that can fail is embedded with
Except, the error case standing for a Go panic unwinding out of Get.
-/

namespace BackendSandbox

/-! ## Copy-on-write map (immutable_data.go, ImmutableMap)

The Go struct holds `data map[string]int` guarded by an RWMutex.  Get
reads `val, ok := m.data[key]` under the read lock; Set builds
`newData := make(...); maps.Copy(newData, m.data); newData[key] = value`
and replaces `m.data` under the write lock.  The map is embedded as the
snapshot function; the mutex disappears because each method body is a
single atomic step here. -/

/-- State of the Go ImmutableMap: the current snapshot, a finite map from
string keys to int values, embedded as a function to Option. -/
structure ImmutableMap where
  data : String → Option Int

/-- NewImmutableMap from the source: starts with an empty map. -/
def NewImmutableMap : ImmutableMap := ⟨fun _ => none⟩

/-- Get from the source: `val, ok := m.data[key]; return val, ok`.  A Go map
read of an absent key yields the zero value of the element type, 0 for int,
together with ok = false. -/
def ImmutableMap.Get (m : ImmutableMap) (key : String) : Int × Bool :=
  ((m.data key).getD 0, (m.data key).isSome)

/-- Set from the source: the new snapshot is a copy of every entry of the
current snapshot (maps.Copy) with the binding key ↦ value added,
overwriting any existing binding of key; the snapshot reference is then
replaced. -/
def ImmutableMap.Set (m : ImmutableMap) (key : String) (value : Int) : ImmutableMap :=
  ⟨fun k => if k = key then some value else m.data k⟩

/-! ## Lazy single-value cache (lazy_initialization.go, LazyConfig)

The Go struct holds config, a loaded flag, the loadFunc and a mutex.  Get
runs entirely under the mutex: if not loaded it calls loadFunc, stores the
result and sets loaded; it then returns config.  IsLoaded reads the flag
under the mutex.  The embedding instruments the number of loadFunc
invocations with a calls counter and lets loadFunc depend on that counter,
so a producer that would return something different on a later call is
expressible. -/

/-- State of the Go LazyConfig: the cached config, the loaded flag, the
producer (indexed by how many invocations happened before, to model a
time-varying producer), and the instrumentation counter of producer
invocations. -/
structure LazyConfig (T : Type) where
  config : T
  loaded : Bool
  loadFunc : Nat → T
  calls : Nat

/-- NewLazyConfig from the source: stores loadFunc, loaded = false; config
starts at the Go zero value of its type, passed here explicitly as zero. -/
def NewLazyConfig (zero : T) (loadFunc : Nat → T) : LazyConfig T :=
  ⟨zero, false, loadFunc, 0⟩

/-- Get from the source: under the mutex, if not loaded invoke loadFunc,
store the result and set loaded = true; return the (now) cached config. -/
def LazyConfig.Get (lc : LazyConfig T) : T × LazyConfig T :=
  if lc.loaded then (lc.config, lc)
  else
    let v := lc.loadFunc lc.calls
    (v, { lc with config := v, loaded := true, calls := lc.calls + 1 })

/-- IsLoaded from the source: reads the loaded flag under the mutex; it does
not touch config, loadFunc or the call counter. -/
def LazyConfig.IsLoaded (lc : LazyConfig T) : Bool :=
  lc.loaded

/-- Operations observable on a LazyConfig: Get (result discarded) and
IsLoaded (pure, changes nothing). -/
inductive LCOp where
  | get
  | isLoaded

/-- Run a sequence of operations against a LazyConfig, threading the state;
IsLoaded leaves the state unchanged (it only returns the flag). -/
def LazyConfig.run (lc : LazyConfig T) : List LCOp → LazyConfig T
  | [] => lc
  | LCOp.get :: ops => lc.Get.2.run ops
  | LCOp.isLoaded :: ops => lc.run ops

/-! ## Keyed lazy cache (lazy_initialization.go, Cache)

The Go struct holds `data map[string]any` plus `loader func(string) any`
under an RWMutex.  Get checks the map under the read lock (fast path),
then re-checks under the write lock (double check), then loads and stores.
Sequentially each Get is one atomic transition; the interleaved version is
modelled further below for C4.  The map is embedded as an association list
written only at a miss; the log field records the loader invocations in
reverse order of occurrence, and the loader takes the number of earlier
invocations as an extra argument so a loader that would return something
different on a later call is expressible. -/

/-- Lookup in an association list, first binding wins, matching a Go map in
which every key has at most one binding. -/
def lookupKV : List (String × V) → String → Option V
  | [], _ => none
  | (k2, v) :: rest, k => if k = k2 then some v else lookupKV rest k

/-- State of the Go Cache: the backing map entries, plus the instrumentation
log of loader invocations (key and produced value, most recent first). -/
structure Cache (V : Type) where
  data : List (String × V)
  log : List (String × V)

/-- NewCache from the source: starts with an empty map (and an empty
invocation log); the loader, fixed at construction in Go, is threaded as an
explicit argument of Get below. -/
def NewCache (V : Type) : Cache V := ⟨[], []⟩

/-- Get from the source, as one sequential transition: on a hit (fast path,
or equivalently the double check) return the stored value and leave the
cache unchanged; on a miss invoke the loader, store the produced value and
return it.  The loader receives the number of earlier invocations as its
first argument. -/
def Cache.Get (loader : Nat → String → V) (c : Cache V) (key : String) :
    V × Cache V :=
  match lookupKV c.data key with
  | some v => (v, c)
  | none =>
    let v := loader c.log.length key
    (v, ⟨(key, v) :: c.data, (key, v) :: c.log⟩)

/-- Run a sequence of sequential Get calls, collecting the returned values
and the final cache state. -/
def Cache.runGets (loader : Nat → String → V) (c : Cache V) :
    List String → List V × Cache V
  | [] => ([], c)
  | k :: ks =>
    let step := c.Get loader k
    let rest := step.2.runGets loader ks
    (step.1 :: rest.1, rest.2)

/-- Invariant of a sequentially driven Cache: the backing map and the
invocation log hold the same bindings, and no key was loaded twice. -/
def Cache.Inv (c : Cache V) : Prop :=
  c.data = c.log ∧ (c.log.map Prod.fst).Nodup

/-! ## Keyed cache under concurrent Get on one key (C4)

Concurrency model for N goroutines all calling Cache.Get with the same
fixed key on a fresh cache.  Cache.Get has exactly two atomic critical
sections: the read-locked check (lines 145-150) and the write-locked
double check plus load plus store (lines 153-164, the lock is held for the
whole block via defer).  A goroutine is therefore a two-step program, and
an execution is an arbitrary interleaving — a schedule of thread indexes —
of these atomic steps. -/

/-- Phase of one goroutine running Cache.Get for the shared key: before the
read-locked check, past it having observed a miss (read lock released,
waiting for the write lock), or finished holding its return value. -/
inductive KPhase (V : Type) where
  | start
  | pastRead
  | done (v : V)
  deriving DecidableEq

/-- Test for the finished phase. -/
def KPhase.isDone : KPhase V → Bool
  | done _ => true
  | _ => false

/-- Global state of the experiment: the cache entry for the shared key, the
number of loader invocations so far, and every goroutine phase. -/
structure KCState (V : Type) where
  entry : Option V
  count : Nat
  threads : List (KPhase V)
  deriving DecidableEq

/-- One atomic step of goroutine i, following Cache.Get.  In phase start the
read-locked check either returns the cached value (fast path) or observes
the miss; in phase pastRead the write-locked section re-checks and returns
the entry if another goroutine published one meanwhile, and otherwise
invokes the loader (indexed by the number of earlier invocations, so a
time-varying loader is expressible), stores the value and returns it.  A
finished goroutine or an out-of-range index changes nothing. -/
def kstep (loader : Nat → V) (s : KCState V) (i : Nat) : KCState V :=
  match s.threads[i]? with
  | none => s
  | some KPhase.start =>
    match s.entry with
    | some v => { s with threads := s.threads.set i (KPhase.done v) }
    | none => { s with threads := s.threads.set i KPhase.pastRead }
  | some KPhase.pastRead =>
    match s.entry with
    | some v => { s with threads := s.threads.set i (KPhase.done v) }
    | none =>
      { entry := some (loader s.count), count := s.count + 1,
        threads := s.threads.set i (KPhase.done (loader s.count)) }
  | some (KPhase.done _) => s

/-- Run a schedule: an arbitrary interleaving of the goroutine steps. -/
def krun (loader : Nat → V) (s : KCState V) : List Nat → KCState V
  | [] => s
  | i :: rest => krun loader (kstep loader s i) rest

/-- Fresh cache with n goroutines each about to call Get on the shared
key. -/
def kfresh (V : Type) (n : Nat) : KCState V :=
  ⟨none, 0, List.replicate n KPhase.start⟩

/-- Invariant of the experiment: either nothing is published and the loader
never ran, or the value of the single loader invocation is published and
the loader ran exactly once; and every finished goroutine returned the
currently published value. -/
def KInv (loader : Nat → V) (s : KCState V) : Prop :=
  ((s.entry = none ∧ s.count = 0) ∨
    (s.entry = some (loader 0) ∧ s.count = 1)) ∧
  (∀ v : V, KPhase.done v ∈ s.threads → s.entry = some v)

/-! ## Keyed cache with a fallible loader (C8)

The Go loader `func(string) any` has no error return; the only way it can
fail is to panic, which unwinds out of Get before the store
`c.data[key] = val` executes (the deferred unlock still runs).  The loader
is therefore embedded with Except, the error case standing for a panic. -/

namespace FallibleLoader

/-- State of the Go Cache for the fallible-loader analysis: the backing map
entries, plus the instrumented count of loader invocations, failed ones
included. -/
structure Cache (V : Type) where
  data : List (String × V)
  calls : Nat

/-- Get from the source with a fallible loader: on a hit return the stored
value; on a miss invoke the loader — if it fails the failure propagates and
nothing is stored (the map is exactly as before); if it succeeds the value
is stored and returned.  The loader receives the number of earlier
invocations as its first argument. -/
def Cache.Get (loader : Nat → String → Except E V) (c : Cache V)
    (key : String) : Except E V × Cache V :=
  match lookupKV c.data key with
  | some v => (Except.ok v, c)
  | none =>
    match loader c.calls key with
    | Except.error e => (Except.error e, { c with calls := c.calls + 1 })
    | Except.ok v => (Except.ok v, ⟨(key, v) :: c.data, c.calls + 1⟩)

end FallibleLoader

/-! ## Constructors and nil loaders (C9)

NewCache (lines 135-140) stores the passed loader without any check, and
NewLazyConfig (lines 57-62) stores the passed loadFunc without any check.
The loader field is embedded as an Option, none standing for a nil Go
function value; calling a nil function panics, embedded as error. -/

namespace NilLoader

/-- State of the Go Cache with the loader field kept explicit and nil-able:
none models a nil Go function value. -/
structure Cache (V : Type) where
  data : List (String × V)
  loader : Option (String → V)

/-- NewCache from the source:
`return &Cache{data: make(map[string]any), loader: loader}` — the loader
argument is stored exactly as passed, with no nil validation. -/
def NewCache (V : Type) (loader : Option (String → V)) : Cache V :=
  ⟨[], loader⟩

/-- Get from the source with the stored loader: on a miss Go evaluates
`c.loader(key)`; if the stored loader is nil this call panics, embedded as
error. -/
def Cache.Get (c : Cache V) (key : String) : Except Unit (V × Cache V) :=
  match lookupKV c.data key with
  | some v => Except.ok (v, c)
  | none =>
    match c.loader with
    | none => Except.error ()
    | some f => Except.ok (f key, ⟨(key, f key) :: c.data, c.loader⟩)

/-- State of the Go LazyConfig with the loadFunc field kept explicit and
nil-able: none models a nil Go function value. -/
structure LazyConfig (T : Type) where
  config : T
  loaded : Bool
  loadFunc : Option (Nat → T)
  calls : Nat

/-- NewLazyConfig from the source:
`return &LazyConfig{loadFunc: loadFunc, loaded: false}` — the loadFunc
argument is stored exactly as passed, with no nil validation. -/
def NewLazyConfig (zero : T) (loadFunc : Option (Nat → T)) : LazyConfig T :=
  ⟨zero, false, loadFunc, 0⟩

/-- Get from the source with the stored producer: when not loaded Go
evaluates `lc.loadFunc()`; if the stored producer is nil this call panics,
embedded as error. -/
def LazyConfig.Get (lc : LazyConfig T) : Except Unit (T × LazyConfig T) :=
  if lc.loaded then Except.ok (lc.config, lc)
  else
    match lc.loadFunc with
    | none => Except.error ()
    | some f =>
      let v := f lc.calls
      Except.ok (v, { lc with config := v, loaded := true, calls := lc.calls + 1 })

end NilLoader

/-! ## Theorems for the claims -/

/-- Claim C2: after Set(k,v), Get(k) = (v,true); after a further Set(k,v2),
Get(k) = (v2,true) — overwrite, no duplicates.  Concretely, from a fresh
container, set("a",1); set("b",2); set("a",3) gives get("a") = (3,true),
get("b") = (2,true), and get("c") not found. -/
theorem cow_set_then_get (m : ImmutableMap) (k : String) (v v2 : Int) :
    ((m.Set k v).Get k = (v, true) ∧ ((m.Set k v).Set k v2).Get k = (v2, true)) ∧
    (((NewImmutableMap.Set "a" 1).Set "b" 2).Set "a" 3).Get "a" = (3, true) ∧
    (((NewImmutableMap.Set "a" 1).Set "b" 2).Set "a" 3).Get "b" = (2, true) ∧
    (((NewImmutableMap.Set "a" 1).Set "b" 2).Set "a" 3).Get "c" = (0, false) := by
  refine ⟨⟨?_, ?_⟩, ?_, ?_, ?_⟩ <;>
    simp [ImmutableMap.Get, ImmutableMap.Set, NewImmutableMap]

/-- Claim C5: Get on a key absent from the snapshot returns found = false;
Get is a total function (it cannot fail, throw or panic), and the miss is
reported through the Bool component, not through any error channel. -/
theorem cow_get_miss_not_error (m : ImmutableMap) (k : String)
    (habsent : m.data k = none) : (m.Get k).2 = false := by
  simp [ImmutableMap.Get, habsent]

/-- Witness for C5 at the fresh container and key x. -/
theorem cow_get_miss_not_error_witness :
    (NewImmutableMap.Get "x").2 = false :=
  cow_get_miss_not_error NewImmutableMap "x" rfl

/-- Claim C6: Set(key,value) changes only the binding of key: every other
key reads the same (value, found) pair afterwards, and the new snapshot is
exactly the old snapshot overridden at key. -/
theorem cow_set_frame (m : ImmutableMap) (k : String) (v : Int) (k2 : String)
    (hne : k2 ≠ k) :
    (m.Set k v).Get k2 = m.Get k2 ∧
    ∀ k3, (m.Set k v).data k3 = if k3 = k then some v else m.data k3 := by
  refine ⟨?_, fun k3 => rfl⟩
  simp [ImmutableMap.Get, ImmutableMap.Set, hne]

/-- Witness for C6: setting a does not disturb b on the fresh container. -/
theorem cow_set_frame_witness :
    (NewImmutableMap.Set "a" 1).Get "b" = NewImmutableMap.Get "b" :=
  (cow_set_frame NewImmutableMap "a" 1 "b" (by decide)).1

/-- Claim C10: whenever Get reports found = false its value component is the
zero value 0 of the element type — the absent-key result is
deterministic. -/
theorem cow_get_miss_zero (m : ImmutableMap) (k : String)
    (hmiss : (m.Get k).2 = false) : (m.Get k).1 = 0 := by
  unfold ImmutableMap.Get at *
  cases h : m.data k with
  | none => simp [h]
  | some v => simp [h] at hmiss

/-- Witness for C10 at the fresh container and key y. -/
theorem cow_get_miss_zero_witness :
    (NewImmutableMap.Get "y").1 = 0 :=
  cow_get_miss_zero NewImmutableMap "y" rfl

/-- Claim C3: on a fresh lazy config two sequential Get calls invoke the
producer exactly once and both return the value of that single invocation;
IsLoaded is false before the first Get and true after; IsLoaded only reads
the flag and never triggers loading (it leaves every field unchanged,
being a pure projection). -/
theorem lazyConfig_get_twice (T : Type) (zero : T) (f : Nat → T) :
    ((NewLazyConfig zero f).Get.1 = f 0 ∧
      (NewLazyConfig zero f).Get.2.Get.1 = f 0 ∧
      (NewLazyConfig zero f).Get.2.Get.2.calls = 1) ∧
    ((NewLazyConfig zero f).IsLoaded = false ∧
      (NewLazyConfig zero f).Get.2.IsLoaded = true) ∧
    (∀ lc : LazyConfig T, lc.IsLoaded = lc.loaded) := by
  refine ⟨⟨?_, ?_, ?_⟩, ⟨rfl, ?_⟩, fun lc => rfl⟩ <;>
    simp [NewLazyConfig, LazyConfig.Get, LazyConfig.IsLoaded]

/-- Claim C7: the state machine is UNLOADED -> LOADED with LOADED terminal:
from any state whose loaded flag is true, every sequence of Get and
IsLoaded operations leaves the flag true and the cached config value
unchanged. -/
theorem lazyConfig_loaded_terminal (T : Type) (lc : LazyConfig T)
    (ops : List LCOp) (hloaded : lc.loaded = true) :
    (lc.run ops).loaded = true ∧ (lc.run ops).config = lc.config := by
  induction ops generalizing lc with
  | nil => exact ⟨hloaded, rfl⟩
  | cons op rest ih =>
    cases op with
    | get =>
      have hstate : lc.Get.2 = lc := by simp [LazyConfig.Get, hloaded]
      simpa [LazyConfig.run, hstate] using ih lc hloaded
    | isLoaded => simpa [LazyConfig.run] using ih lc hloaded

/-- Witness for C7: a loaded config with value 5 stays loaded at 5 across a
Get, an IsLoaded and another Get. -/
theorem lazyConfig_loaded_terminal_witness :
    ((⟨5, true, fun _ => 9, 1⟩ : LazyConfig Nat).run
        [LCOp.get, LCOp.isLoaded, LCOp.get]).loaded = true ∧
      ((⟨5, true, fun _ => 9, 1⟩ : LazyConfig Nat).run
        [LCOp.get, LCOp.isLoaded, LCOp.get]).config = 5 :=
  lazyConfig_loaded_terminal Nat ⟨5, true, fun _ => 9, 1⟩
    [LCOp.get, LCOp.isLoaded, LCOp.get] rfl

/-- Helper: a key absent under lookupKV is not among the keys of the list. -/
theorem lookupKV_eq_none_iff (l : List (String × V)) (k : String) :
    lookupKV l k = none ↔ k ∉ l.map Prod.fst := by
  induction l with
  | nil => simp [lookupKV]
  | cons p rest ih =>
    obtain ⟨k2, v⟩ := p
    by_cases hk : k = k2 <;> simp [lookupKV, hk, ih]

/-- Helper: prepending a binding for a fresh key preserves existing lookups. -/
theorem lookupKV_cons_of_ne (l : List (String × V)) (k k2 : String) (v : V)
    (hne : k ≠ k2) : lookupKV ((k2, v) :: l) k = lookupKV l k := by
  simp [lookupKV, hne]

/-- Helper: one Get preserves the invariant, only appends to the log,
preserves every established log binding, and returns exactly the log
binding of its key in the post state. -/
theorem Cache.Get_spec (loader : Nat → String → V) (c : Cache V)
    (key : String) (hinv : c.Inv) :
    (c.Get loader key).2.Inv ∧
    (∀ k v, lookupKV c.log k = some v →
      lookupKV (c.Get loader key).2.log k = some v) ∧
    some (c.Get loader key).1 = lookupKV (c.Get loader key).2.log key := by
  obtain ⟨hdata, hnodup⟩ := hinv
  cases hfind : lookupKV c.data key with
  | some v =>
    have hGet : c.Get loader key = (v, c) := by
      simp [Cache.Get, hfind]
    rw [hGet]
    exact ⟨⟨hdata, hnodup⟩, fun k w hw => hw, (hdata ▸ hfind).symm⟩
  | none =>
    have hlogNone : lookupKV c.log key = none := hdata ▸ hfind
    have hfresh : key ∉ c.log.map Prod.fst :=
      (lookupKV_eq_none_iff c.log key).mp hlogNone
    have hGet : c.Get loader key =
        (loader c.log.length key,
          ⟨(key, loader c.log.length key) :: c.data,
            (key, loader c.log.length key) :: c.log⟩) := by
      simp [Cache.Get, hfind]
    rw [hGet]
    refine ⟨⟨by rw [hdata], ?_⟩, ?_, ?_⟩
    · rw [List.map_cons]
      exact List.nodup_cons.mpr ⟨hfresh, hnodup⟩
    · intro k w hw
      have hne : k ≠ key := by
        rintro rfl
        rw [hlogNone] at hw
        exact Option.noConfusion hw
      rw [lookupKV_cons_of_ne _ _ _ _ hne]
      exact hw
    · simp [lookupKV]

/-- Helper: runGets preserves the invariant and established log bindings,
returns one value per requested key, and every returned value is the final
log binding of its key. -/
theorem Cache.runGets_spec (loader : Nat → String → V) (ks : List String)
    (c : Cache V) (hinv : c.Inv) :
    (c.runGets loader ks).2.Inv ∧
    (∀ k v, lookupKV c.log k = some v →
      lookupKV (c.runGets loader ks).2.log k = some v) ∧
    (c.runGets loader ks).1.length = ks.length ∧
    (∀ (i : Nat) (k : String), ks[i]? = some k →
      (c.runGets loader ks).1[i]? = lookupKV (c.runGets loader ks).2.log k) := by
  induction ks generalizing c with
  | nil =>
    exact ⟨hinv, fun k v hv => hv, rfl, by intro i k h; simp at h⟩
  | cons k0 ks ih =>
    obtain ⟨hinv1, hmono1, hval1⟩ := Cache.Get_spec loader c k0 hinv
    obtain ⟨hinv2, hmono2, hlen2, hres2⟩ := ih (c.Get loader k0).2 hinv1
    refine ⟨hinv2, fun k v hv => hmono2 k v (hmono1 k v hv), ?_, ?_⟩
    · simpa [Cache.runGets] using hlen2
    · intro i k hik
      match i with
      | 0 =>
        simp only [List.getElem?_cons_zero, Option.some.injEq] at hik
        subst hik
        simp only [Cache.runGets, List.getElem?_cons_zero]
        cases hv : lookupKV (c.Get loader k0).2.log k0 with
        | none => rw [hv] at hval1; exact Option.noConfusion hval1
        | some v =>
          rw [hv] at hval1
          rw [hval1, hmono2 k0 v hv]
      | i + 1 =>
        simp only [List.getElem?_cons_succ] at hik
        simpa [Cache.runGets] using hres2 i k hik

/-- Claim C1: over any sequence of sequential Get calls on a fresh keyed
cache the loader runs at most once per distinct key, and every Get — first
and subsequent — returns the value produced by that single invocation (the
logged value, even if the loader would produce something different at a
later invocation index). -/
theorem cache_sequential_at_most_once (V : Type) (loader : Nat → String → V)
    (ks : List String) :
    (∀ k, (((NewCache V).runGets loader ks).2.log.map Prod.fst).count k ≤ 1) ∧
    (∀ (i : Nat) (k : String), ks[i]? = some k →
      ((NewCache V).runGets loader ks).1[i]? =
        lookupKV ((NewCache V).runGets loader ks).2.log k) := by
  obtain ⟨⟨_, hnodup⟩, _, _, hres⟩ :=
    Cache.runGets_spec loader ks (NewCache V) ⟨rfl, List.nodup_nil⟩
  exact ⟨fun k => List.nodup_iff_count_le_one.mp hnodup k, hres⟩

/-- Witness for C1: keys a, b, a with a loader returning its invocation
index; the loader ran once for a and once for b, and the third Get returned
the first invocation of a. -/
theorem cache_sequential_at_most_once_witness :
    ((((NewCache Nat).runGets (fun n _ => n) ["a", "b", "a"]).2.log.map
        Prod.fst).count "a" ≤ 1) ∧
    ((NewCache Nat).runGets (fun n _ => n) ["a", "b", "a"]).1[2]? =
      lookupKV ((NewCache Nat).runGets (fun n _ => n) ["a", "b", "a"]).2.log
        "a" :=
  ⟨(cache_sequential_at_most_once Nat (fun n _ => n) ["a", "b", "a"]).1 "a",
    (cache_sequential_at_most_once Nat (fun n _ => n) ["a", "b", "a"]).2 2 "a"
      rfl⟩

/-- Helper: each atomic step preserves the invariant. -/
theorem kstep_inv (loader : Nat → V) (s : KCState V) (i : Nat)
    (hinv : KInv loader s) : KInv loader (kstep loader s i) := by
  obtain ⟨hentry, hdone⟩ := hinv
  unfold kstep
  split
  · exact ⟨hentry, hdone⟩
  · split
    next v hent =>
      refine ⟨hentry, fun w hw => ?_⟩
      rcases List.mem_or_eq_of_mem_set hw with hmem | heq
      · exact hdone w hmem
      · cases heq
        exact hent
    next hent =>
      refine ⟨hentry, fun w hw => ?_⟩
      rcases List.mem_or_eq_of_mem_set hw with hmem | heq
      · exact hdone w hmem
      · exact absurd heq (by simp)
  · split
    next v hent =>
      refine ⟨hentry, fun w hw => ?_⟩
      rcases List.mem_or_eq_of_mem_set hw with hmem | heq
      · exact hdone w hmem
      · cases heq
        exact hent
    next hent =>
      have hc0 : s.count = 0 := by
        rcases hentry with ⟨_, h⟩ | ⟨h, _⟩
        · exact h
        · rw [hent] at h
          exact Option.noConfusion h
      refine ⟨Or.inr ⟨by rw [hc0], by rw [hc0]⟩, fun w hw => ?_⟩
      rcases List.mem_or_eq_of_mem_set hw with hmem | heq
      · rw [hent] at hdone
        exact Option.noConfusion (hdone w hmem)
      · cases heq
        rfl
  · exact ⟨hentry, hdone⟩

/-- Helper: every schedule preserves the invariant. -/
theorem krun_inv (loader : Nat → V) (σ : List Nat) (s : KCState V)
    (hinv : KInv loader s) : KInv loader (krun loader s σ) := by
  induction σ generalizing s with
  | nil => exact hinv
  | cons i rest ih => exact ih _ (kstep_inv loader s i hinv)

/-- Helper: steps do not change the number of goroutines. -/
theorem kstep_threads_length (loader : Nat → V) (s : KCState V) (i : Nat) :
    (kstep loader s i).threads.length = s.threads.length := by
  unfold kstep
  split
  · rfl
  · split <;> exact List.length_set ..
  · split <;> exact List.length_set ..
  · rfl

/-- Helper: schedules do not change the number of goroutines. -/
theorem krun_threads_length (loader : Nat → V) (σ : List Nat)
    (s : KCState V) : (krun loader s σ).threads.length = s.threads.length := by
  induction σ generalizing s with
  | nil => rfl
  | cons i rest ih =>
    rw [krun, ih, kstep_threads_length]

/-- Claim C4: for a fixed key, under every interleaving that completes all
of the N goroutines concurrently calling Get on a fresh cache (N ≥ 1), the
loader was invoked exactly once and every goroutine returned the value of
that single first invocation. -/
theorem cache_concurrent_get_once (V : Type) (loader : Nat → V) (n : Nat)
    (σ : List Nat) (hn : 0 < n)
    (hall : ∀ ph ∈ (krun loader (kfresh V n) σ).threads, ph.isDone = true) :
    (krun loader (kfresh V n) σ).count = 1 ∧
    ∀ v : V, KPhase.done v ∈ (krun loader (kfresh V n) σ).threads →
      v = loader 0 := by
  have hinv0 : KInv loader (kfresh V n) := by
    refine ⟨Or.inl ⟨rfl, rfl⟩, fun v hv => ?_⟩
    have := List.eq_of_mem_replicate hv
    exact absurd this (by simp)
  obtain ⟨hentry, hdoneInv⟩ := krun_inv loader σ (kfresh V n) hinv0
  have hlen : (krun loader (kfresh V n) σ).threads.length = n := by
    rw [krun_threads_length]
    simp [kfresh]
  have hnil : (krun loader (kfresh V n) σ).threads ≠ [] := by
    intro h
    rw [h] at hlen
    simp at hlen
    omega
  obtain ⟨ph, hmem⟩ := List.exists_mem_of_ne_nil _ hnil
  have hph := hall ph hmem
  cases ph with
  | start => simp [KPhase.isDone] at hph
  | pastRead => simp [KPhase.isDone] at hph
  | done v =>
    have hent := hdoneInv v hmem
    rcases hentry with ⟨h1, _⟩ | ⟨h1, h2⟩
    · rw [hent] at h1
      exact Option.noConfusion h1
    · refine ⟨h2, fun w hw => ?_⟩
      have hw2 := hdoneInv w hw
      rw [hw2] at h1
      exact Option.some.inj h1

/-- Witness for C4: two goroutines racing on the schedule 0,1,0,1 — both
observe the miss under the read lock, goroutine 0 loads under the write
lock, goroutine 1 hits the double check; the loader ran once and both
finish with its value 42. -/
theorem cache_concurrent_get_once_witness :
    (krun (fun _ => 42) (kfresh Nat 2) [0, 1, 0, 1]).count = 1 ∧
    ∀ v : Nat,
      KPhase.done v ∈ (krun (fun _ => 42) (kfresh Nat 2) [0, 1, 0, 1]).threads →
        v = (fun _ => 42) 0 :=
  cache_concurrent_get_once Nat (fun _ => 42) 2 [0, 1, 0, 1] (by decide)
    (by decide)

/-- Claim C8: if the loader fails (panics) during Get on a missing key, the
failure propagates to that caller, no entry is stored (the backing map is
exactly as before, while the invocation count shows the loader did run),
and a subsequent Get of the same key invokes the loader again — if that
retry succeeds its value is returned and stored, so there is no negative
caching. -/
theorem cache_loader_failure_no_negative_caching (V E : Type)
    (loader : Nat → String → Except E V) (c : FallibleLoader.Cache V)
    (key : String) (e : E)
    (hmiss : lookupKV c.data key = none)
    (hfail : loader c.calls key = Except.error e) :
    (c.Get loader key).1 = Except.error e ∧
    (c.Get loader key).2.data = c.data ∧
    (c.Get loader key).2.calls = c.calls + 1 ∧
    (∀ v : V, loader (c.calls + 1) key = Except.ok v →
      ((c.Get loader key).2.Get loader key).1 = Except.ok v ∧
      ((c.Get loader key).2.Get loader key).2.data = (key, v) :: c.data) := by
  have hGet : c.Get loader key =
      (Except.error e, ⟨c.data, c.calls + 1⟩) := by
    simp [FallibleLoader.Cache.Get, hmiss, hfail]
  refine ⟨by rw [hGet], by rw [hGet], by rw [hGet], ?_⟩
  intro v hok
  rw [hGet]
  constructor <;> simp [FallibleLoader.Cache.Get, hmiss, hok]

/-- Witness for C8: a loader that panics on its first invocation and
returns 7 on the retry; the first Get on key k propagates the failure and
stores nothing, the second Get returns and stores 7. -/
theorem cache_loader_failure_no_negative_caching_witness :
    ((⟨[], 0⟩ : FallibleLoader.Cache Nat).Get
        (fun n _ => if n = 0 then Except.error "boom" else Except.ok 7)
        "k").1 = Except.error "boom" ∧
    ((⟨[], 0⟩ : FallibleLoader.Cache Nat).Get
        (fun n _ => if n = 0 then Except.error "boom" else Except.ok 7)
        "k").2.data = [] ∧
    ((⟨[], 0⟩ : FallibleLoader.Cache Nat).Get
        (fun n _ => if n = 0 then Except.error "boom" else Except.ok 7)
        "k").2.calls = 0 + 1 ∧
    (((⟨[], 0⟩ : FallibleLoader.Cache Nat).Get
          (fun n _ => if n = 0 then Except.error "boom" else Except.ok 7)
          "k").2.Get
        (fun n _ => if n = 0 then Except.error "boom" else Except.ok 7)
        "k").1 = Except.ok 7 ∧
    (((⟨[], 0⟩ : FallibleLoader.Cache Nat).Get
          (fun n _ => if n = 0 then Except.error "boom" else Except.ok 7)
          "k").2.Get
        (fun n _ => if n = 0 then Except.error "boom" else Except.ok 7)
        "k").2.data = [("k", 7)] :=
  have h := cache_loader_failure_no_negative_caching Nat String
    (fun n _ => if n = 0 then Except.error "boom" else Except.ok 7)
    ⟨[], 0⟩ "k" "boom" rfl rfl
  ⟨h.1, h.2.1, h.2.2.1, (h.2.2.2 7 rfl).1, (h.2.2.2 7 rfl).2⟩

/-- Counterexample to C9: constructing the keyed cache with a nil loader
does not fail at construction time — NewCache stores the nil loader
unchecked and returns a cache — and the later Get on a missing key does
fail precisely because the loader is nil. -/
theorem newCache_nil_not_validated :
    (NilLoader.NewCache Nat none).loader = none ∧
    (NilLoader.NewCache Nat none).Get "k" = Except.error () :=
  ⟨rfl, rfl⟩

/-- Claim C9 as amended: neither NewCache nor NewLazyConfig validates its
loader argument; construction with a nil loader succeeds and stores the
nil, and the failure surfaces at call time instead — Get on a missing key
(or the first LazyConfig.Get) panics invoking the nil loader. -/
theorem cache_construction_unvalidated (V : Type) (l : Option (String → V))
    (z : V) (p : Option (Nat → V)) (k : String) :
    (NilLoader.NewCache V l).data = [] ∧
    (NilLoader.NewCache V l).loader = l ∧
    (NilLoader.NewCache V none).Get k = Except.error () ∧
    (NilLoader.NewLazyConfig z p).loadFunc = p ∧
    (NilLoader.NewLazyConfig z p).loaded = false ∧
    (NilLoader.NewLazyConfig z (none : Option (Nat → V))).Get =
      Except.error () :=
  ⟨rfl, rfl, rfl, rfl, rfl, rfl⟩

end BackendSandbox
